import Mathlib

/-!
Shallow embedding of `src/utils.py` (bloomberg/climate-credit-risk).

Numbers are modeled by `ℚ`.  The external numeric primitives supplied by
scipy/numpy (normal CDF/PDF, `np.exp`, `np.sqrt` and `** 0.5`, `np.pi`, the
bivariate-normal CDF, the Gauss-Hermite quadrature provider, as well as
`np.linalg.cholesky` and `np.linalg.svd`) are abstracted into a `Prims`
structure; everything written in the repository itself is translated
definition-by-definition below.  Vectors are `List ℚ`; a numpy array of shape
`(n+1, K)` is a `List (List ℚ)`, and of shape `(n+1, n+1, K)` a
`List (List (List ℚ))`.  Fallible numpy behavior (raised `ValueError`s and
broadcasting failures) is returned as `Except String`.
-/

namespace ClimateCreditRisk

/-- External numeric primitives (scipy / numpy library calls) used by the
repository, abstracted over `ℚ`.  `hermGauss` returns the paired
(knot, weight) list of `gauss_hermite`; `cholesky` returns `none` when
`np.linalg.cholesky` raises `LinAlgError`; `svdUS` returns the `(u, s)`
part of `np.linalg.svd` (the third factor is unused by the source). -/
structure Prims where
  normCdf : ℚ → ℚ
  normPdf : ℚ → ℚ
  exp : ℚ → ℚ
  sqrt : ℚ → ℚ
  pi : ℚ
  mvnCdf2 : ℚ → ℚ → ℚ → ℚ → ℚ → ℚ
  hermGauss : ℕ → List (ℚ × ℚ)
  cholesky : List (List ℚ) → Option (List (List ℚ))
  svdUS : List (List ℚ) → List (List ℚ) × List ℚ

/-- `scipy.special.hermitenorm n` evaluated at `x`: the probabilist Hermite
polynomial, `He 0 = 1`, `He 1 = x`, `He (n+2) x = x * He (n+1) x - (n+1) * He n x`. -/
def hermitenorm : ℕ → ℚ → ℚ
  | 0, _ => 1
  | 1, x => x
  | n + 2, x => x * hermitenorm (n + 1) x - (n + 1 : ℚ) * hermitenorm n x

/-- `coef_gauss_pce` (src/utils.py:135-157), per evaluation point (the source
applies it elementwise to an array `x`). -/
def coef_gauss_pce (P : Prims) (n : ℕ) (x : ℚ) : ℚ :=
  if n = 0 then P.normCdf (-x)
  else P.normPdf x * hermitenorm (n - 1) x / (Nat.factorial n : ℚ)

/-- Entry `i` (PCE order) of `mean_gauss_pce` (src/utils.py:160-205) for one
obligor with parameters `(a, b)`; the source loop is elementwise in the
obligor axis, filling row `i` from rows `i-1` and `i-2`.  `(1.0 + a**2) ** 0.5`
and `np.sqrt` are both the `sqrt` primitive. -/
def meanGaussEntry (P : Prims) (a b : ℚ) : ℕ → ℚ
  | 0 => P.normCdf (-(b / P.sqrt (1 + a ^ 2)))
  | 1 => P.exp (-((b / P.sqrt (1 + a ^ 2)) ^ 2) / 2) / P.sqrt (2 * P.pi) / P.sqrt (1 + a ^ 2)
  | 2 => b / 2 * meanGaussEntry P a b 1 / (1 + a ^ 2)
  | i + 3 =>
      (b / (i + 3 : ℚ) * meanGaussEntry P a b (i + 2)
        - (i + 1 : ℚ) / ((i + 3 : ℚ) * (i + 2 : ℚ)) * meanGaussEntry P a b (i + 1))
        / (1 + a ^ 2)

/-- `mean_gauss_pce` (src/utils.py:160-205): eager shape check, then the
`(n+1) × K` mean tensor. -/
def mean_gauss_pce (P : Prims) (n : ℕ) (a b : List ℚ) :
    Except String (List (List ℚ)) :=
  if a.length ≠ b.length then .error "a and b must have the same shape."
  else .ok ((List.range (n + 1)).map fun i =>
    (a.zip b).map fun p => meanGaussEntry P p.1 p.2 i)

/-- Entry `i` of `_sigma0_matrix` (src/utils.py:208-253) for one obligor:
row/column 0 of the PCE covariance.  `mu_n` is `mean_gauss_pce` at `(a, b)`,
`mu_n2` is `mean_gauss_pce` at `(a / sqrt(1+a^2), b / (1+a^2))`, and the `i = 0`
entry uses the bivariate normal CDF at `(-b, -b)` with covariance
`[[1+a^2, a^2], [a^2, 1+a^2]]`. -/
def sigma0Entry (P : Prims) (a b : ℚ) : ℕ → ℚ
  | 0 => P.mvnCdf2 (-b) (-b) (1 + a ^ 2) (a ^ 2) (1 + a ^ 2) - meanGaussEntry P a b 0 ^ 2
  | 1 => meanGaussEntry P a b 1 *
      (meanGaussEntry P (a / P.sqrt (1 + a ^ 2)) (b / (1 + a ^ 2)) 0 - meanGaussEntry P a b 0)
  | i + 2 =>
      (b * sigma0Entry P a b (i + 1) - (i : ℚ) / (i + 1 : ℚ) * sigma0Entry P a b i
        - a ^ 2 * meanGaussEntry P a b 1 *
            meanGaussEntry P (a / P.sqrt (1 + a ^ 2)) (b / (1 + a ^ 2)) (i + 1))
        / ((i + 2 : ℚ) * (1 + a ^ 2))

/-- The scaling factor `(1 / ((i + 1) * (a**2)))` of the interior recursion of
`cov_gauss_pce` (src/utils.py:296). -/
def covInteriorFactor (i : ℕ) (a : ℚ) : ℚ := 1 / ((i + 1 : ℚ) * a ^ 2)

/-- Entry `(i, j)` of the tensor built by `cov_gauss_pce` (src/utils.py:256-302)
for one obligor.  The source preallocates a zero array, writes row 0 and column
0 from `_sigma0_matrix`, then for `i in range(0, n)`, `j in range(0, n - 1)`
writes entry `(i+1, j+1)` from row `i`.  Entries `(i+1, j+1)` outside that
write range keep their initial value `0`; in particular column `n` of every row
`i ≥ 1` is never written, and the recursion reads those zeros. -/
def covGaussEntry (P : Prims) (n : ℕ) (a b : ℚ) : ℕ → ℕ → ℚ
  | 0, j => sigma0Entry P a b j
  | i + 1, 0 => sigma0Entry P a b (i + 1)
  | i + 1, j + 1 =>
      if i + 1 ≤ n ∧ j + 1 ≤ n - 1 then
        covInteriorFactor i a *
          (-(1 + a ^ 2) * (j + 2 : ℚ) * covGaussEntry P n a b i (j + 2)
            + b * covGaussEntry P n a b i (j + 1)
            - (j : ℚ) / (j + 1 : ℚ) * covGaussEntry P n a b i j)
          - meanGaussEntry P a b (i + 1) * meanGaussEntry P a b (j + 1)
      else 0

/-- `cov_gauss_pce` (src/utils.py:256-302): eager shape check (with the
source's misspelled message), then the `(n+1) × (n+1) × K` tensor. -/
def cov_gauss_pce (P : Prims) (n : ℕ) (a b : List ℚ) :
    Except String (List (List (List ℚ))) :=
  if a.length ≠ b.length then .error "a and b must have the shape."
  else .ok ((List.range (n + 1)).map fun i => (List.range (n + 1)).map fun j =>
    (a.zip b).map fun p => covGaussEntry P n p.1 p.2 i j)

/-- Argument of `mean_cov_pce_quad` (src/utils.py:305-405): the source accepts
scalars or 1-d arrays and promotes with `np.atleast_1d`. -/
inductive NpInput
  | scalar (x : ℚ)
  | arr (v : List ℚ)

/-- `np.atleast_1d`. -/
def atleast_1d : NpInput → List ℚ
  | .scalar x => [x]
  | .arr v => v

/-- `sig = 1.0 / np.sqrt(1.0 + a**2)` (src/utils.py:398), per obligor. -/
def sigQ (P : Prims) (a : ℚ) : ℚ := 1 / P.sqrt (1 + a ^ 2)

/-- `mu = -a * b / (1.0 + a**2)` (src/utils.py:397), per obligor. -/
def muQ (a b : ℚ) : ℚ := -a * b / (1 + a ^ 2)

/-- Entry of `x_he_ab = a * x_he + b` (src/utils.py:396) at node `t`. -/
def xQ (a b t : ℚ) : ℚ := a * t + b

/-- Entry of `y_he_ab = a * (sig * x_he + mu) + b` (src/utils.py:399) at node `t`. -/
def yQ (P : Prims) (a b t : ℚ) : ℚ := a * (sigQ P a * t + muQ a b) + b

/-- `np.exp(-0.5 * b**2 / (a**2 + 1.0))`, the Gaussian density correction
factor of the quadrature integrands (src/utils.py:353, 371, 381). -/
def gaussFacQ (P : Prims) (a b : ℚ) : ℚ := P.exp (-(1 / 2) * b ^ 2 / (a ^ 2 + 1))

/-- Entry `m` of `compute_mean_pce` inside `mean_cov_pce_quad`
(src/utils.py:334-356), per obligor: closed forms for `m = 0, 1`, quadrature
sum for `m ≥ 2`. -/
def meanQuadEntry (P : Prims) (nodes : List (ℚ × ℚ)) (a b : ℚ) : ℕ → ℚ
  | 0 => P.normCdf (-(b / P.sqrt (1 + a ^ 2)))
  | 1 => P.normPdf (b / P.sqrt (1 + a ^ 2)) / P.sqrt (1 + a ^ 2)
  | m + 2 =>
      (nodes.map fun tw => tw.2 * hermitenorm (m + 1) (yQ P a b tw.1)).sum
        * sigQ P a * gaussFacQ P a b
        / (P.sqrt (2 * P.pi) * (Nat.factorial (m + 2) : ℚ))

/-- The order-`m` integrand of `compute_cov_pce` (src/utils.py:365-383) at
quadrature node `t`, per obligor: `coef_gauss_pce(0, x_he_ab)` for `m = 0`,
otherwise the scaled Hermite polynomial at the conditionally centered node. -/
def integrandQ (P : Prims) (a b : ℚ) (m : ℕ) (t : ℚ) : ℚ :=
  if m = 0 then coef_gauss_pce P 0 (xQ a b t)
  else hermitenorm (m - 1) (yQ P a b t) * sigQ P a * gaussFacQ P a b
        / (P.sqrt (2 * P.pi) * (Nat.factorial m : ℚ))

/-- Entry `(m1, m2)` of the array filled by the `compute_cov_pce` loops
(src/utils.py:363-387), per obligor: only the triangle `m2 ≥ m1` is written
(quadrature sum minus the product of means); the rest keeps its zero
initialization. -/
def covQuadRaw (P : Prims) (nodes : List (ℚ × ℚ)) (a b : ℚ) (m1 m2 : ℕ) : ℚ :=
  if m1 ≤ m2 then
    (nodes.map fun tw => tw.2 * integrandQ P a b m1 tw.1 * integrandQ P a b m2 tw.1).sum
      - meanQuadEntry P nodes a b m1 * meanQuadEntry P nodes a b m2
  else 0

/-- Entry `(m1, m2, k)` of `np.triu(cov) + np.tril(cov.transpose(1, 0, 2), -1)`
(src/utils.py:389-392).  `np.triu` and `np.tril` act on the FINAL two axes of a
3-d array, i.e. on the `(m2, k)` plane: the entry keeps the raw `(m1, m2)`
value when `k ≥ m2` and takes the transposed raw `(m2, m1)` value when
`k < m2`. -/
def covQuadEntry (P : Prims) (nodes : List (ℚ × ℚ)) (a b : ℚ) (m1 m2 k : ℕ) : ℚ :=
  if m2 ≤ k then covQuadRaw P nodes a b m1 m2 else covQuadRaw P nodes a b m2 m1

/-- `mean_cov_pce_quad` (src/utils.py:305-405).  After `np.atleast_1d`, every
binary operation in the body combines an `a`-derived vector with a `b`-derived
vector, and each computed row (of the broadcast length) is assigned into a
zero array of width `a.length`; under numpy broadcasting this all succeeds
exactly when the two lengths are equal or `b` has length one (there is no
eager shape check), and then every operation acts elementwise on the broadcast
`(a, b)` pairs.  Other length combinations raise a numpy broadcasting error
part-way through the computation, returned here as `Except.error`. -/
def mean_cov_pce_quad (P : Prims) (a0 b0 : NpInput) (n_pce n_quad : ℕ) :
    Except String (List (List ℚ) × List (List (List ℚ))) :=
  let a := atleast_1d a0
  let b := atleast_1d b0
  if a.length = b.length ∨ b.length = 1 then
    let pairs := if a.length = b.length then a.zip b
                 else a.map fun x => (x, b.headD 0)
    let nodes := P.hermGauss n_quad
    .ok ((List.range (n_pce + 1)).map fun m =>
           pairs.map fun p => meanQuadEntry P nodes p.1 p.2 m,
         (List.range (n_pce + 1)).map fun m1 =>
           (List.range (n_pce + 1)).map fun m2 =>
             (List.range pairs.length).map fun k =>
               covQuadEntry P nodes (pairs.getD k (0, 0)).1 (pairs.getD k (0, 0)).2 m1 m2 k)
  else .error "operands could not be broadcast together"

/-- The flattened multi-index table of `compute_multi_index`
(src/utils.py:495-509): for `m` from 0 to `n_pce`, for `m1` from 0 to `m`, the
triple `(m1, m - m1, C(m, m1))` (`scipy.special.comb`, exact binomial). -/
def multiIndexTab (n_pce : ℕ) : List (ℕ × ℕ × ℕ) :=
  (List.range (n_pce + 1)).flatMap fun m =>
    (List.range (m + 1)).map fun m1 => (m1, m - m1, Nat.choose m m1)

/-- `compute_multi_index` (src/utils.py:495-509): the table transposed into the
three parallel rows `m1`, `m2`, `m_comb`. -/
def compute_multi_index (n_pce : ℕ) : List ℕ × List ℕ × List ℕ :=
  ((multiIndexTab n_pce).map fun t => t.1,
   (multiIndexTab n_pce).map fun t => t.2.1,
   (multiIndexTab n_pce).map fun t => t.2.2)

/-- The `params` record consumed by `compute_loss_pca_pce`
(src/utils.py:512-543): per-firm arrays. -/
structure PortfolioParams where
  l1_normalized : List ℚ
  l2_normalized : List ℚ
  mean_a_normalized : List ℚ
  std_a_normalized : List ℚ
  tab_lambda : List ℚ

/-- The possible return values of `compute_loss_pca_pce`, tagged by which
early-return path produced them. -/
inductive LossResult
  | epsFull (v : List (List ℚ))
  | lossFull (v : List ℚ)
  | meanCovEps (mean_eps : List ℚ) (cov_eps : List (List ℚ))
  | loss (v : List ℚ)
deriving DecidableEq

/-- `simulate_vec_eps_full` inside `compute_loss_pca_pce`
(src/utils.py:559-579): the full (non-Gaussian-approximated) eps vector.
`vec_a[f][j] = mean_a[f] + std_a[f] * randn`, with the standard-normal draws
passed in as `drawsA`; entry `(e, j)` sums over firms
`lambda_f * multi_e * coef_{m1_e+m2_e}(vec_a[f][j]) * l1_f^{m1_e} * l2_f^{m2_e}`. -/
def vecEpsFull (P : Prims) (n_pce n_firms n_mc : ℕ) (params : PortfolioParams)
    (drawsA : List (List ℚ)) : List (List ℚ) :=
  (List.range (multiIndexTab n_pce).length).map fun e =>
    (List.range n_mc).map fun j =>
      ((List.range n_firms).map fun f =>
        params.tab_lambda.getD f 0 * ((compute_multi_index n_pce).2.2.getD e 0 : ℚ)
          * coef_gauss_pce P
              ((compute_multi_index n_pce).1.getD e 0 + (compute_multi_index n_pce).2.1.getD e 0)
              (params.mean_a_normalized.getD f 0
                + params.std_a_normalized.getD f 0 * (drawsA.getD f []).getD j 0)
          * params.l1_normalized.getD f 0 ^ (compute_multi_index n_pce).1.getD e 0
          * params.l2_normalized.getD f 0 ^ (compute_multi_index n_pce).2.1.getD e 0).sum

/-- `he_m1_m2` (src/utils.py:585-591): independently sampled products of two
Hermite polynomials, one pair of standard-normal draw streams `(z1, z2)` per
multi-index entry. -/
def heM1M2 (n_pce n_mc : ℕ) (z1 z2 : List (List ℚ)) : List (List ℚ) :=
  (List.range ((n_pce + 1) * (n_pce + 2) / 2)).map fun e =>
    (List.range n_mc).map fun j =>
      hermitenorm ((compute_multi_index n_pce).1.getD e 0) ((z1.getD e []).getD j 0)
        * hermitenorm ((compute_multi_index n_pce).2.1.getD e 0) ((z2.getD e []).getD j 0)

/-- `np.sum(A * B, axis=0)` for two arrays of shape `(n_eps, n_mc)`
(src/utils.py:594 and 674-678). -/
def sumProdAxis0 (A B : List (List ℚ)) (n_mc : ℕ) : List ℚ :=
  (List.range n_mc).map fun j =>
    (List.zipWith (fun ra rb => ra.getD j 0 * rb.getD j 0) A B).sum

/-- `get_cov_eps` inside `compute_loss_pca_pce` (src/utils.py:596-647): pushes
`(std_a_normalized, mean_a_normalized)` through the quadrature moment engine
and aggregates over firms with `tab_lambda`, the multi-index binomial weights
and the `l1/l2` exponent tables.  The covariance entry `(r, c)` reads the
quadrature covariance at index `(m1+m2 of column c, m1+m2 of row r)` — the
tiling/transposition in the source puts the column index first. -/
def getCovEps (P : Prims) (n_pce n_firms n_quad : ℕ) (params : PortfolioParams) :
    Except String (List ℚ × List (List ℚ)) := do
  let (meanA, covA) ← mean_cov_pce_quad P (.arr params.std_a_normalized)
      (.arr params.mean_a_normalized) n_pce n_quad
  let tab_m1 := (compute_multi_index n_pce).1
  let tab_m2 := (compute_multi_index n_pce).2.1
  let tab_multi := (compute_multi_index n_pce).2.2
  let n_eps := (n_pce + 1) * (n_pce + 2) / 2
  let mean_eps := (List.range n_eps).map fun e =>
    ((List.range n_firms).map fun f =>
      (tab_multi.getD e 0 : ℚ) * params.tab_lambda.getD f 0
        * (meanA.getD (tab_m1.getD e 0 + tab_m2.getD e 0) []).getD f 0
        * params.l1_normalized.getD f 0 ^ tab_m1.getD e 0
        * params.l2_normalized.getD f 0 ^ tab_m2.getD e 0).sum
  let cov_eps := (List.range n_eps).map fun r => (List.range n_eps).map fun c =>
    (tab_multi.getD c 0 : ℚ) * (tab_multi.getD r 0 : ℚ) *
      ((List.range n_firms).map fun f =>
        params.tab_lambda.getD f 0 ^ 2
          * ((covA.getD (tab_m1.getD c 0 + tab_m2.getD c 0) []).getD
              (tab_m1.getD r 0 + tab_m2.getD r 0) []).getD f 0
          * params.l1_normalized.getD f 0 ^ tab_m1.getD r 0
          * params.l2_normalized.getD f 0 ^ tab_m2.getD r 0
          * params.l1_normalized.getD f 0 ^ tab_m1.getD c 0
          * params.l2_normalized.getD f 0 ^ tab_m2.getD c 0).sum
  return (mean_eps, cov_eps)

/-- `simulate_vec_eps` inside `compute_loss_pca_pce` (src/utils.py:652-672).
When `np.linalg.cholesky` succeeds: `mean_eps[:, None] + chol @ z`.  On
`LinAlgError` (`cholesky` returns `none`): the PCA/SVD fallback, a zero array
of `eigs.length` rows accumulating `sqrt(eigs[idx]) * u[:, idx] * z[idx]` over
`idx in range(n_eps)`, plus the mean.  The standard-normal draws are passed in
as the row-stream `z`. -/
def simulate_vec_eps (P : Prims) (n_eps n_mc : ℕ) (mean_eps : List ℚ)
    (cov_eps : List (List ℚ)) (z : List (List ℚ)) : List (List ℚ) :=
  match P.cholesky cov_eps with
  | some chol =>
      (List.range n_eps).map fun r => (List.range n_mc).map fun j =>
        mean_eps.getD r 0 +
          ((List.range n_eps).map fun c =>
            (chol.getD r []).getD c 0 * (z.getD c []).getD j 0).sum
  | none =>
      (List.range (P.svdUS cov_eps).2.length).map fun r => (List.range n_mc).map fun j =>
        mean_eps.getD r 0 +
          ((List.range n_eps).map fun idx =>
            P.sqrt ((P.svdUS cov_eps).2.getD idx 0)
              * ((P.svdUS cov_eps).1.getD r []).getD idx 0
              * (z.getD idx []).getD j 0).sum

/-- `compute_loss_pca_pce` (src/utils.py:512-678).  The flags are consulted in
source order: `return_eps_full` short-circuits before the Hermite products,
the moment computation and the eps sampling; then `he_m1_m2` is formed and
`return_loss_full` short-circuits before `return_mean_cov_eps`; else the
moments are computed, optionally returned, and otherwise the sampled loss is
returned.  Random draws (`np.random.randn`) are modeled by the explicit
streams `drawsA` (full simulation), `z1`/`z2` (Hermite products) and `zEps`
(eps sampling). -/
def compute_loss_pca_pce (P : Prims) (n_pce n_firms n_mc : ℕ)
    (params : PortfolioParams)
    (return_mean_cov_eps return_eps_full return_loss_full : Bool) (n_quad : ℕ)
    (drawsA z1 z2 zEps : List (List ℚ)) : Except String LossResult :=
  if return_eps_full then
    .ok (.epsFull (vecEpsFull P n_pce n_firms n_mc params drawsA))
  else
    let he := heM1M2 n_pce n_mc z1 z2
    if return_loss_full then
      .ok (.lossFull (sumProdAxis0 (vecEpsFull P n_pce n_firms n_mc params drawsA) he n_mc))
    else do
      let (mean_eps, cov_eps) ← getCovEps P n_pce n_firms n_quad params
      if return_mean_cov_eps then return .meanCovEps mean_eps cov_eps
      else return .loss (sumProdAxis0
        (simulate_vec_eps P ((n_pce + 1) * (n_pce + 2) / 2) n_mc mean_eps cov_eps zEps)
        he n_mc)

/-- Entry `(i, k)` of a `(n+1, K)` tensor, with default 0. -/
def entry2 (M : List (List ℚ)) (i k : ℕ) : ℚ := (M.getD i []).getD k 0

/-- Entry `(i, j, k)` of a `(n+1, n+1, K)` tensor, with default 0. -/
def entry3 (T : List (List (List ℚ))) (i j k : ℕ) : ℚ := ((T.getD i []).getD j []).getD k 0

/-- Whether an `Except` computation finished without raising. -/
def isOkE {α : Type} : Except String α → Bool
  | .ok _ => true
  | .error _ => false

/-- Extract the value of a non-raising tensor computation (default `[]`). -/
def getOk3 : Except String (List (List (List ℚ))) → List (List (List ℚ))
  | .ok t => t
  | .error _ => []

/-- Extract the value of a non-raising `mean_cov_pce_quad` call. -/
def getOkMC : Except String (List (List ℚ) × List (List (List ℚ))) →
    List (List ℚ) × List (List (List ℚ))
  | .ok t => t
  | .error _ => ([], [])

/-- A concrete, fully computable instantiation of the external primitives,
used to evaluate the embedded program at specific inputs.  `normPdf` is chosen
to satisfy the density identity `normPdf x = exp (-(x^2) / 2) / sqrt (2 * pi)`
and `normCdf` the symmetry `normCdf (-x) = 1 - normCdf x` of the real normal
distribution; `cholesky` always reports `LinAlgError`; `svdUS m = (m, first
column of m)`. -/
def Qfix : Prims where
  normCdf x := 1 / 2 - x
  normPdf x := (1 - x ^ 2 / 2) / 4
  exp x := 1 + x
  sqrt x := x
  pi := 2
  mvnCdf2 _ _ _ _ _ := 1 / 3
  hermGauss n := (List.range n).map fun i => ((i : ℚ), 1)
  cholesky _ := none
  svdUS m := (m, m.map fun r => r.headD 0)

/-! ### Helper lemmas -/

theorem getD_range_map {α : Type} (f : ℕ → α) (d : α) {n i : ℕ} (hi : i < n) :
    ((List.range n).map f).getD i d = f i := by
  rw [List.getD_eq_getElem?_getD]
  simp [List.getElem?_map, List.getElem?_range, hi]

theorem getD_map {α β : Type} (f : α → β) (d : α) (e : β) :
    ∀ (l : List α) (k : ℕ), k < l.length → (l.map f).getD k e = f (l.getD k d)
  | _ :: _, 0, _ => rfl
  | _ :: xs, k + 1, h => getD_map f d e xs k (by simpa using h)

theorem zip_getD : ∀ (a b : List ℚ) (k : ℕ), k < a.length → k < b.length →
    (a.zip b).getD k (0, 0) = (a.getD k 0, b.getD k 0)
  | _ :: xs, _ :: ys, k + 1, h1, h2 =>
      zip_getD xs ys k (by simpa using h1) (by simpa using h2)
  | _ :: _, _ :: _, 0, _, _ => rfl

theorem mean_gauss_pce_ok {P : Prims} {n : ℕ} {a b : List ℚ} {M : List (List ℚ)}
    (hM : mean_gauss_pce P n a b = .ok M) :
    a.length = b.length ∧
      M = (List.range (n + 1)).map fun i =>
        (a.zip b).map fun p => meanGaussEntry P p.1 p.2 i := by
  by_cases h : a.length = b.length
  · refine ⟨h, ?_⟩
    unfold mean_gauss_pce at hM
    rw [if_neg (fun hc => hc h)] at hM
    exact (by injection hM with h0; exact h0.symm)
  · exact absurd hM (by simp [mean_gauss_pce, h])

theorem mean_entry_eq {P : Prims} {n : ℕ} {a b : List ℚ} {M : List (List ℚ)}
    (hM : mean_gauss_pce P n a b = .ok M) {i k : ℕ} (hi : i < n + 1)
    (hk : k < a.length) :
    entry2 M i k = meanGaussEntry P (a.getD k 0) (b.getD k 0) i := by
  obtain ⟨hlen, rfl⟩ := mean_gauss_pce_ok hM
  unfold entry2
  rw [getD_range_map _ _ hi, getD_map _ (0, 0) _ _ _ (by simp [List.length_zip]; omega),
    zip_getD a b k hk (hlen ▸ hk)]

theorem mean_cov_pce_quad_ok_of_eq {P : Prims} {a b : List ℚ} {n_pce n_quad : ℕ}
    (hlen : a.length = b.length) :
    mean_cov_pce_quad P (.arr a) (.arr b) n_pce n_quad
      = .ok ((List.range (n_pce + 1)).map fun m =>
               (a.zip b).map fun p => meanQuadEntry P (P.hermGauss n_quad) p.1 p.2 m,
             (List.range (n_pce + 1)).map fun m1 =>
               (List.range (n_pce + 1)).map fun m2 =>
                 (List.range (a.zip b).length).map fun k =>
                   covQuadEntry P (P.hermGauss n_quad) ((a.zip b).getD k (0, 0)).1
                     ((a.zip b).getD k (0, 0)).2 m1 m2 k) := by
  simp only [mean_cov_pce_quad, atleast_1d]
  rw [if_pos (Or.inl hlen), if_pos hlen]

/-! ### Claim theorems -/

/-- C9: the early-return flags of `compute_loss_pca_pce` are checked in a fixed
precedence order.  If `return_eps_full` is true the raw simulated eps vector is
returned — a value depending only on the full-simulation draws, independent of
`return_mean_cov_eps`, `return_loss_full`, `n_quad` and the other draw streams,
so no Hermite-product sampling, moment computation or eps sampling contributes;
if `return_loss_full` is true and `return_eps_full` false, the raw loss vector
is returned whatever the value of `return_mean_cov_eps`. -/
theorem compute_loss_flag_precedence (P : Prims) (n_pce n_firms n_mc : ℕ)
    (params : PortfolioParams) (eM eL : Bool) (n_quad : ℕ)
    (drawsA z1 z2 zEps : List (List ℚ)) :
    compute_loss_pca_pce P n_pce n_firms n_mc params eM true eL n_quad drawsA z1 z2 zEps
      = .ok (.epsFull (vecEpsFull P n_pce n_firms n_mc params drawsA))
    ∧ compute_loss_pca_pce P n_pce n_firms n_mc params eM false true n_quad drawsA z1 z2 zEps
      = .ok (.lossFull (sumProdAxis0 (vecEpsFull P n_pce n_firms n_mc params drawsA)
          (heM1M2 n_pce n_mc z1 z2) n_mc)) :=
  ⟨rfl, rfl⟩

/-- C10: `mean_cov_pce_quad` accepts scalar `a` and `b`, promoting each to a
length-1 vector, and returns (without failing) a mean tensor of shape
`(n_pce+1, 1)` and a covariance tensor of shape `(n_pce+1, n_pce+1, 1)`. -/
theorem mean_cov_pce_quad_scalar (P : Prims) (qa qb : ℚ) (n_pce n_quad : ℕ) :
    isOkE (mean_cov_pce_quad P (.scalar qa) (.scalar qb) n_pce n_quad) = true
    ∧ (getOkMC (mean_cov_pce_quad P (.scalar qa) (.scalar qb) n_pce n_quad)).1.length
        = n_pce + 1
    ∧ ((getOkMC (mean_cov_pce_quad P (.scalar qa) (.scalar qb) n_pce n_quad)).1.all
        fun r => r.length = 1) = true
    ∧ (getOkMC (mean_cov_pce_quad P (.scalar qa) (.scalar qb) n_pce n_quad)).2.length
        = n_pce + 1
    ∧ ((getOkMC (mean_cov_pce_quad P (.scalar qa) (.scalar qb) n_pce n_quad)).2.all
        fun p => p.length = n_pce + 1 && (p.all fun r => r.length = 1)) = true := by
  have hq : mean_cov_pce_quad P (.scalar qa) (.scalar qb) n_pce n_quad
      = mean_cov_pce_quad P (.arr [qa]) (.arr [qb]) n_pce n_quad := rfl
  rw [hq, mean_cov_pce_quad_ok_of_eq (by rfl)]
  refine ⟨rfl, by simp [getOkMC], ?_, by simp [getOkMC], ?_⟩
  · simp only [getOkMC, List.all_eq_true, List.mem_map]
    rintro r ⟨i, -, rfl⟩
    simp
  · simp only [getOkMC, List.all_eq_true, List.mem_map, Bool.and_eq_true]
    rintro p ⟨m1, -, rfl⟩
    refine ⟨by simp, ?_⟩
    simp only [List.all_eq_true, List.mem_map]
    rintro r ⟨m2, -, rfl⟩
    simp

/-- C1 (counterexample): the claim that every mismatched-length pair makes all
three moment engines raise eagerly is false for the quadrature engine —
`mean_cov_pce_quad` with `a` of length 3 and `b` of length 1 performs no shape
check, broadcasts, and returns full output. -/
theorem quad_no_shape_check_counterexample :
    [(1 : ℚ), 1, 1].length ≠ [(0 : ℚ)].length
    ∧ isOkE (mean_cov_pce_quad Qfix (.arr [1, 1, 1]) (.arr [0]) 2 1) = true := by
  exact ⟨by decide, by decide⟩

/-- C1 (amended): the analytic engines `mean_gauss_pce` and `cov_gauss_pce`
raise the shape-mismatch error eagerly, before any computation, for every
unequal-length pair; the quadrature engine `mean_cov_pce_quad` has no eager
check — a mismatched pair whose `b` has length 1 is broadcast and yields full
output, and any other mismatch surfaces only as a numpy broadcasting failure
part-way through the computation. -/
theorem shape_mismatch_amended (P : Prims) (n n_pce n_quad : ℕ) (a b : List ℚ)
    (h : a.length ≠ b.length) :
    mean_gauss_pce P n a b = .error "a and b must have the same shape."
    ∧ cov_gauss_pce P n a b = .error "a and b must have the shape."
    ∧ (b.length = 1 →
        isOkE (mean_cov_pce_quad P (.arr a) (.arr b) n_pce n_quad) = true)
    ∧ (b.length ≠ 1 →
        isOkE (mean_cov_pce_quad P (.arr a) (.arr b) n_pce n_quad) = false) := by
  refine ⟨by simp [mean_gauss_pce, h], by simp [cov_gauss_pce, h], ?_, ?_⟩
  · intro hb
    simp [mean_cov_pce_quad, atleast_1d, hb, isOkE]
  · intro hb
    simp [mean_cov_pce_quad, atleast_1d, h, hb, isOkE]

/-- Witness for C1 (amended) at a concrete mismatched pair. -/
theorem shape_mismatch_amended_witness :
    mean_gauss_pce Qfix 1 [1, 2, 3] [4, 5] = .error "a and b must have the same shape."
    ∧ cov_gauss_pce Qfix 1 [1, 2, 3] [4, 5] = .error "a and b must have the shape."
    ∧ ([(4 : ℚ), 5].length = 1 →
        isOkE (mean_cov_pce_quad Qfix (.arr [1, 2, 3]) (.arr [4, 5]) 1 1) = true)
    ∧ ([(4 : ℚ), 5].length ≠ 1 →
        isOkE (mean_cov_pce_quad Qfix (.arr [1, 2, 3]) (.arr [4, 5]) 1 1) = false) :=
  shape_mismatch_amended Qfix 1 1 1 [1, 2, 3] [4, 5] (by decide)

/-- C2: evaluation of both covariance engines at a concrete input, showing that
neither returned tensor is symmetric in its two leading index axes.  For the
analytic engine (`n = 2`, `a = [1]`, `b = [1]`) entry `(1, 2, 0)` stays at its
zero initialization (column `n` of rows `≥ 1` is never written and no
symmetrization exists) while `(2, 1, 0)` is computed; for the quadrature engine
the `np.triu`/`np.tril` mirroring acts on the last two axes (order, obligor)
instead of the two order axes, so `(1, 2, 0)` is zero while `(2, 1, 0)` holds
the computed `(1, 2)` covariance. -/
theorem cov_symmetry_violation :
    isOkE (cov_gauss_pce Qfix 2 [1] [1]) = true
    ∧ entry3 (getOk3 (cov_gauss_pce Qfix 2 [1] [1])) 1 2 0
        ≠ entry3 (getOk3 (cov_gauss_pce Qfix 2 [1] [1])) 2 1 0
    ∧ isOkE (mean_cov_pce_quad Qfix (.arr [1]) (.arr [1]) 2 1) = true
    ∧ entry3 (getOkMC (mean_cov_pce_quad Qfix (.arr [1]) (.arr [1]) 2 1)).2 1 2 0
        ≠ entry3 (getOkMC (mean_cov_pce_quad Qfix (.arr [1]) (.arr [1]) 2 1)).2 2 1 0 := by
  refine ⟨by decide, ?_, by decide, ?_⟩
  · norm_num [cov_gauss_pce, getOk3, entry3, covGaussEntry, sigma0Entry, meanGaussEntry,
      covInteriorFactor, Qfix, List.range_succ]
  · norm_num [mean_cov_pce_quad, getOkMC, entry3, atleast_1d, covQuadEntry, covQuadRaw,
      integrandQ, meanQuadEntry, coef_gauss_pce, xQ, yQ, sigQ, muQ, gaussFacQ, hermitenorm,
      Qfix, List.range_succ]

/-- C8: when some `a_k = 0`, the interior recursion of `cov_gauss_pce` divides
by zero — for every executed row `i` of the interior loop the scaling factor
`1 / ((i + 1) * a_k^2)` has denominator `(i + 1) * a_k^2 = 0` — and no guard
against `a_k = 0` exists anywhere inside the engine: the computation still
returns a tensor (the only raised error is the eager shape check). -/
theorem cov_gauss_pce_div_zero (P : Prims) (n : ℕ) (a b : List ℚ) (k : ℕ)
    (hn : 2 ≤ n) (hlen : a.length = b.length) (hk : k < a.length)
    (hak : a.getD k 0 = 0) :
    isOkE (cov_gauss_pce P n a b) = true
    ∧ ∀ i, i < n → ((i : ℚ) + 1) * a.getD k 0 ^ 2 = 0
        ∧ covInteriorFactor i (a.getD k 0) = 1 / 0 := by
  refine ⟨by simp [cov_gauss_pce, hlen, isOkE], ?_⟩
  intro i _
  rw [hak]
  exact ⟨by ring, by unfold covInteriorFactor; norm_num⟩

/-- Witness for C8 at `n = 2`, `a = [0]`, `b = [1]`, `k = 0`, row `i = 1`. -/
theorem cov_gauss_pce_div_zero_witness :
    isOkE (cov_gauss_pce Qfix 2 [0] [1]) = true
    ∧ (((1 : ℕ) : ℚ) + 1) * [(0 : ℚ)].getD 0 0 ^ 2 = 0
    ∧ covInteriorFactor 1 ([(0 : ℚ)].getD 0 0) = 1 / 0 :=
  ⟨(cov_gauss_pce_div_zero Qfix 2 [0] [1] 0 (by decide) (by decide) (by decide)
      (by decide)).1,
   ((cov_gauss_pce_div_zero Qfix 2 [0] [1] 0 (by decide) (by decide) (by decide)
      (by decide)).2 1 (by decide)).1,
   ((cov_gauss_pce_div_zero Qfix 2 [0] [1] 0 (by decide) (by decide) (by decide)
      (by decide)).2 1 (by decide)).2⟩

/-- C4: `coef_gauss_pce(0, x)` is the standard-normal survival function
`1 - Φ(x)` (the source computes `Φ(-x)`; the symmetry `Φ(-x) = 1 - Φ(x)` of
the real normal CDF is the hypothesis `hsym`), and for `n ≥ 1` it is
`φ(x) · He_{n-1}(x) / n!`. -/
theorem coef_gauss_pce_spec (P : Prims) (x : ℚ)
    (hsym : ∀ y : ℚ, P.normCdf (-y) = 1 - P.normCdf y) :
    coef_gauss_pce P 0 x = 1 - P.normCdf x
    ∧ ∀ n : ℕ, 1 ≤ n →
        coef_gauss_pce P n x
          = P.normPdf x * hermitenorm (n - 1) x / (Nat.factorial n : ℚ) := by
  constructor
  · simpa [coef_gauss_pce] using hsym x
  · intro n hn
    have hne : n ≠ 0 := by omega
    simp [coef_gauss_pce, hne]

/-- Witness for C4 at `x = 1/3`, `n = 3`. -/
theorem coef_gauss_pce_spec_witness :
    coef_gauss_pce Qfix 0 (1 / 3) = 1 - Qfix.normCdf (1 / 3)
    ∧ coef_gauss_pce Qfix 3 (1 / 3)
        = Qfix.normPdf (1 / 3) * hermitenorm 2 (1 / 3) / (Nat.factorial 3 : ℚ) :=
  ⟨(coef_gauss_pce_spec Qfix (1 / 3) (fun y => by
      show (1 : ℚ) / 2 - -y = 1 - ((1 : ℚ) / 2 - y); ring)).1,
   (coef_gauss_pce_spec Qfix (1 / 3) (fun y => by
      show (1 : ℚ) / 2 - -y = 1 - ((1 : ℚ) / 2 - y); ring)).2 3 (by decide)⟩

/-- C3: the entries of the tensor returned by `mean_gauss_pce` satisfy, per
obligor `k`, the closed forms at orders 0, 1, 2 and the three-term recurrence
`mean[i] = ((b/i)*mean[i-1] - ((i-2)/(i*(i-1)))*mean[i-2]) / (1+a^2)` at every
order `3 ≤ i ≤ n`. -/
theorem mean_gauss_pce_recurrence (P : Prims) (n : ℕ) (a b : List ℚ)
    (M : List (List ℚ)) (hM : mean_gauss_pce P n a b = .ok M) (i k : ℕ)
    (hi : i ≤ n) (hk : k < a.length) :
    (i = 0 → entry2 M 0 k = P.normCdf (-(b.getD k 0 / P.sqrt (1 + a.getD k 0 ^ 2))))
    ∧ (i = 1 → entry2 M 1 k
        = P.exp (-((b.getD k 0 / P.sqrt (1 + a.getD k 0 ^ 2)) ^ 2) / 2)
            / (P.sqrt (2 * P.pi) * P.sqrt (1 + a.getD k 0 ^ 2)))
    ∧ (i = 2 → entry2 M 2 k = b.getD k 0 / 2 * entry2 M 1 k / (1 + a.getD k 0 ^ 2))
    ∧ (3 ≤ i → entry2 M i k
        = (b.getD k 0 / (i : ℚ) * entry2 M (i - 1) k
            - ((i : ℚ) - 2) / ((i : ℚ) * ((i : ℚ) - 1)) * entry2 M (i - 2) k)
            / (1 + a.getD k 0 ^ 2)) := by
  refine ⟨?_, ?_, ?_, ?_⟩
  · intro h
    subst h
    rw [mean_entry_eq hM (by omega) hk]
    rfl
  · intro h
    subst h
    rw [mean_entry_eq hM (by omega) hk]
    show _ / _ / _ = _
    rw [div_div]
  · intro h
    subst h
    rw [mean_entry_eq hM (by omega) hk, mean_entry_eq hM (by omega) hk]
    rfl
  · intro h
    obtain ⟨m, rfl⟩ : ∃ m, i = m + 3 := ⟨i - 3, by omega⟩
    rw [mean_entry_eq hM (by omega) hk,
      show m + 3 - 1 = m + 2 from rfl, show m + 3 - 2 = m + 1 from rfl,
      mean_entry_eq hM (by omega) hk, mean_entry_eq hM (by omega) hk]
    show (_ - _) / _ = _
    push_cast
    ring

/-- Witness for C3 at `n = 3`, `a = [1]`, `b = [2]`, order `i = 3`,
obligor `k = 0`. -/
theorem mean_gauss_pce_recurrence_witness :
    (3 = 0 → entry2 [[3/2], [1/16], [1/32], [1/192]] 0 0
        = Qfix.normCdf (-([(2 : ℚ)].getD 0 0 / Qfix.sqrt (1 + [(1 : ℚ)].getD 0 0 ^ 2))))
    ∧ (3 = 1 → entry2 [[3/2], [1/16], [1/32], [1/192]] 1 0
        = Qfix.exp (-(([(2 : ℚ)].getD 0 0 / Qfix.sqrt (1 + [(1 : ℚ)].getD 0 0 ^ 2)) ^ 2) / 2)
            / (Qfix.sqrt (2 * Qfix.pi) * Qfix.sqrt (1 + [(1 : ℚ)].getD 0 0 ^ 2)))
    ∧ (3 = 2 → entry2 [[3/2], [1/16], [1/32], [1/192]] 2 0
        = [(2 : ℚ)].getD 0 0 / 2 * entry2 [[3/2], [1/16], [1/32], [1/192]] 1 0
            / (1 + [(1 : ℚ)].getD 0 0 ^ 2))
    ∧ (3 ≤ 3 → entry2 [[3/2], [1/16], [1/32], [1/192]] 3 0
        = ([(2 : ℚ)].getD 0 0 / ((3 : ℕ) : ℚ) * entry2 [[3/2], [1/16], [1/32], [1/192]] (3 - 1) 0
            - (((3 : ℕ) : ℚ) - 2) / (((3 : ℕ) : ℚ) * (((3 : ℕ) : ℚ) - 1))
                * entry2 [[3/2], [1/16], [1/32], [1/192]] (3 - 2) 0)
            / (1 + [(1 : ℚ)].getD 0 0 ^ 2)) :=
  mean_gauss_pce_recurrence Qfix 3 [1] [2] [[3/2], [1/16], [1/32], [1/192]]
    (by norm_num [mean_gauss_pce, meanGaussEntry, Qfix, List.range_succ])
    3 0 (by omega) (by decide)

/-- C5: for matching `(a, b)` the order-0 and order-1 rows of the quadrature
engine mean are computed by the same closed forms as the analytic engine (no
quadrature sum), so the two mean outputs agree exactly at orders 0 and 1 for
every `n_quad`.  `hpdf` is the density identity `φ(x) = exp(-x²/2)/√(2π)`
relating the two external primitives the two code paths call. -/
theorem quad_mean_low_orders (P : Prims)
    (hpdf : ∀ x : ℚ, P.normPdf x = P.exp (-(x ^ 2) / 2) / P.sqrt (2 * P.pi))
    (n_pce n_quad : ℕ) (hn : 1 ≤ n_pce) (a b : List ℚ)
    (Ma Mq : List (List ℚ)) (Cq : List (List (List ℚ)))
    (hMa : mean_gauss_pce P n_pce a b = .ok Ma)
    (hq : mean_cov_pce_quad P (.arr a) (.arr b) n_pce n_quad = .ok (Mq, Cq)) :
    Mq.getD 0 [] = Ma.getD 0 [] ∧ Mq.getD 1 [] = Ma.getD 1 [] := by
  obtain ⟨hlen, rfl⟩ := mean_gauss_pce_ok hMa
  rw [mean_cov_pce_quad_ok_of_eq hlen] at hq
  injection hq with hq
  rw [Prod.mk.injEq] at hq
  obtain ⟨h1, -⟩ := hq
  subst h1
  constructor
  · rw [getD_range_map _ _ (by omega), getD_range_map _ _ (by omega)]
    have hfun : (fun p : ℚ × ℚ => meanQuadEntry P (P.hermGauss n_quad) p.1 p.2 0)
        = fun p : ℚ × ℚ => meanGaussEntry P p.1 p.2 0 := funext fun p => rfl
    rw [hfun]
  · rw [getD_range_map _ _ (by omega : 1 < n_pce + 1),
      getD_range_map _ _ (by omega : 1 < n_pce + 1)]
    have hfun : (fun p : ℚ × ℚ => meanQuadEntry P (P.hermGauss n_quad) p.1 p.2 1)
        = fun p : ℚ × ℚ => meanGaussEntry P p.1 p.2 1 := by
      funext p
      show P.normPdf (p.2 / P.sqrt (1 + p.1 ^ 2)) / P.sqrt (1 + p.1 ^ 2) = _
      rw [hpdf]
      rfl
    rw [hfun]

/-- Witness for C5 at `n_pce = 1`, `n_quad = 1`, `a = [1]`, `b = [2]`. -/
theorem quad_mean_low_orders_witness :
    ([[(3 : ℚ)/2], [1/16]] : List (List ℚ)).getD 0 []
        = ([[(3 : ℚ)/2], [1/16]] : List (List ℚ)).getD 0 []
    ∧ ([[(3 : ℚ)/2], [1/16]] : List (List ℚ)).getD 1 []
        = ([[(3 : ℚ)/2], [1/16]] : List (List ℚ)).getD 1 [] :=
  quad_mean_low_orders Qfix
    (fun x => by
      show ((1 : ℚ) - x ^ 2 / 2) / 4 = Qfix.exp (-(x ^ 2) / 2) / Qfix.sqrt (2 * Qfix.pi)
      show ((1 : ℚ) - x ^ 2 / 2) / 4 = (1 + -(x ^ 2) / 2) / (2 * 2)
      ring)
    1 1 (by omega) [1] [2] [[3/2], [1/16]] [[3/2], [1/16]] [[[4], [0]], [[0], [-1/256]]]
    (by norm_num [mean_gauss_pce, meanGaussEntry, Qfix, List.range_succ])
    (by norm_num [mean_cov_pce_quad, atleast_1d, meanQuadEntry, covQuadEntry, covQuadRaw,
      integrandQ, coef_gauss_pce, xQ, yQ, sigQ, muQ, gaussFacQ, hermitenorm, Qfix,
      List.range_succ])

theorem multiIndexTab_succ (n : ℕ) :
    multiIndexTab (n + 1) = multiIndexTab n ++
      (List.range (n + 2)).map fun m1 => (m1, n + 1 - m1, Nat.choose (n + 1) m1) := by
  unfold multiIndexTab
  rw [List.range_succ, List.flatMap_append]
  simp only [List.flatMap_cons, List.flatMap_nil, List.append_nil]
  simp [List.range_succ]

theorem multiIndexTab_length (n : ℕ) :
    (multiIndexTab n).length * 2 = (n + 1) * (n + 2) := by
  induction n with
  | zero => rfl
  | succ n ih =>
    rw [multiIndexTab_succ, List.length_append, List.length_map, List.length_range,
      Nat.add_mul, ih]
    ring

theorem multiIndexTab_index_lt (n m m1 : ℕ) (hm : m ≤ n) (hm1 : m1 ≤ m) :
    m * (m + 1) / 2 + m1 < (multiIndexTab n).length := by
  have hL := multiIndexTab_length n
  have h1 : m * (m + 1) ≤ n * (n + 1) := Nat.mul_le_mul hm (by omega)
  have hkey : m * (m + 1) + 2 * m1 < (n + 1) * (n + 2) := by nlinarith
  obtain ⟨t, ht⟩ := Nat.even_mul_succ_self m
  generalize hp : m * (m + 1) = p at ht hkey ⊢
  generalize hq : (n + 1) * (n + 2) = q at hkey hL
  omega

theorem multiIndexTab_getD (n : ℕ) :
    ∀ m m1 : ℕ, m ≤ n → m1 ≤ m →
      (multiIndexTab n).getD (m * (m + 1) / 2 + m1) (0, 0, 0)
        = (m1, m - m1, Nat.choose m m1) := by
  induction n with
  | zero =>
    intro m m1 hm hm1
    have h0 : m = 0 := Nat.le_zero.mp hm
    subst h0
    have h1 : m1 = 0 := Nat.le_zero.mp hm1
    subst h1
    rfl
  | succ n ih =>
    intro m m1 hm hm1
    rcases Nat.lt_or_ge m (n + 1) with h | h
    · rw [multiIndexTab_succ, List.getD_append _ _ _ _ (multiIndexTab_index_lt n m m1 (by omega) hm1)]
      exact ih m m1 (by omega) hm1
    · have hmn : m = n + 1 := by omega
      subst hmn
      have hlen2 : (multiIndexTab n).length = (n + 1) * (n + 2) / 2 := by
        have hL := multiIndexTab_length n
        generalize hq : (n + 1) * (n + 2) = q at hL ⊢
        omega
      rw [multiIndexTab_succ, List.getD_append_right, hlen2]
      · have hidx : (n + 1) * (n + 1 + 1) / 2 + m1 - (n + 1) * (n + 2) / 2 = m1 := by
          simp only [show n + 1 + 1 = n + 2 from rfl]
          generalize (n + 1) * (n + 2) = q
          omega
        rw [hidx, getD_range_map _ _ (by omega : m1 < n + 2)]
      · rw [hlen2]
        simp only [show n + 1 + 1 = n + 2 from rfl]
        generalize (n + 1) * (n + 2) = q
        omega

/-- C6: `compute_multi_index(n_pce)` returns, with no failure, three parallel
sequences each of length `(n_pce+1)(n_pce+2)/2` holding exactly the triples
`(m1, m-m1, C(m, m1))` in lexicographic order by `m` then `m1`: the triple for
`(m, m1)` sits at its lexicographic rank `m(m+1)/2 + m1`. -/
theorem compute_multi_index_spec (n_pce : ℕ) :
    (compute_multi_index n_pce).1.length = (n_pce + 1) * (n_pce + 2) / 2
    ∧ (compute_multi_index n_pce).2.1.length = (n_pce + 1) * (n_pce + 2) / 2
    ∧ (compute_multi_index n_pce).2.2.length = (n_pce + 1) * (n_pce + 2) / 2
    ∧ ∀ m m1 : ℕ, m ≤ n_pce → m1 ≤ m →
        (compute_multi_index n_pce).1.getD (m * (m + 1) / 2 + m1) 0 = m1
        ∧ (compute_multi_index n_pce).2.1.getD (m * (m + 1) / 2 + m1) 0 = m - m1
        ∧ (compute_multi_index n_pce).2.2.getD (m * (m + 1) / 2 + m1) 0
            = Nat.choose m m1 := by
  have hlen2 : (multiIndexTab n_pce).length = (n_pce + 1) * (n_pce + 2) / 2 := by
    have hL := multiIndexTab_length n_pce
    generalize hq : (n_pce + 1) * (n_pce + 2) = q at hL ⊢
    omega
  refine ⟨by simp [compute_multi_index, hlen2], by simp [compute_multi_index, hlen2],
    by simp [compute_multi_index, hlen2], ?_⟩
  intro m m1 hm hm1
  have hlt := multiIndexTab_index_lt n_pce m m1 hm hm1
  unfold compute_multi_index
  rw [getD_map _ (0, 0, 0) _ _ _ hlt, getD_map _ (0, 0, 0) _ _ _ hlt,
    getD_map _ (0, 0, 0) _ _ _ hlt, multiIndexTab_getD n_pce m m1 hm hm1]
  exact ⟨rfl, rfl, rfl⟩

/-- Witness for C6 at `n_pce = 2`, `(m, m1) = (2, 1)` (rank 4). -/
theorem compute_multi_index_spec_witness :
    (compute_multi_index 2).1.length = (2 + 1) * (2 + 2) / 2
    ∧ (compute_multi_index 2).2.1.length = (2 + 1) * (2 + 2) / 2
    ∧ (compute_multi_index 2).2.2.length = (2 + 1) * (2 + 2) / 2
    ∧ ((compute_multi_index 2).1.getD (2 * (2 + 1) / 2 + 1) 0 = 1
        ∧ (compute_multi_index 2).2.1.getD (2 * (2 + 1) / 2 + 1) 0 = 2 - 1
        ∧ (compute_multi_index 2).2.2.getD (2 * (2 + 1) / 2 + 1) 0 = Nat.choose 2 1) :=
  ⟨(compute_multi_index_spec 2).1, (compute_multi_index_spec 2).2.1,
   (compute_multi_index_spec 2).2.2.1,
   (compute_multi_index_spec 2).2.2.2 2 1 (by omega) (by omega)⟩

/-- C7: when the Cholesky factorization of the eps covariance fails
(`np.linalg.cholesky` raises, modeled by `cholesky = none`), the sampling step
of `compute_loss_pca_pce` does not propagate the error: the run still returns
a loss vector, built from eps samples equal to the mean plus the sum over
components of `sqrt(eigenvalue) * eigenvector * standard-normal draw` from the
SVD of the covariance. -/
theorem loss_cholesky_fallback (P : Prims) (n_pce n_firms n_mc n_quad : ℕ)
    (params : PortfolioParams) (drawsA z1 z2 zEps : List (List ℚ))
    (m : List ℚ) (c : List (List ℚ))
    (hok : getCovEps P n_pce n_firms n_quad params = .ok (m, c))
    (hchol : P.cholesky c = none) :
    compute_loss_pca_pce P n_pce n_firms n_mc params false false false n_quad
        drawsA z1 z2 zEps
      = .ok (.loss (sumProdAxis0
          ((List.range (P.svdUS c).2.length).map fun r => (List.range n_mc).map fun j =>
            m.getD r 0 + ((List.range ((n_pce + 1) * (n_pce + 2) / 2)).map fun idx =>
              P.sqrt ((P.svdUS c).2.getD idx 0) * ((P.svdUS c).1.getD r []).getD idx 0
                * (zEps.getD idx []).getD j 0).sum)
          (heM1M2 n_pce n_mc z1 z2) n_mc)) := by
  unfold compute_loss_pca_pce
  rw [if_neg (by simp), if_neg (by simp), hok]
  show (if (false : Bool) = true then (pure (LossResult.meanCovEps m c) : Except String LossResult)
      else pure (.loss (sumProdAxis0
        (simulate_vec_eps P ((n_pce + 1) * (n_pce + 2) / 2) n_mc m c zEps)
        (heM1M2 n_pce n_mc z1 z2) n_mc))) = _
  rw [if_neg (by simp)]
  unfold simulate_vec_eps
  rw [hchol]
  rfl

/-- Witness for C7: a one-firm, order-0 portfolio whose eps covariance is the
(non-positive-definite) `[[-1/4]]`; `cholesky` reports failure and the run
still returns a loss vector built by the eigen-decomposition fallback. -/
theorem loss_cholesky_fallback_witness :
    compute_loss_pca_pce Qfix 0 1 1 ⟨[1], [1], [0], [0], [1]⟩ false false false 0
        [[1]] [[1]] [[1]] [[1]]
      = .ok (.loss (sumProdAxis0
          ((List.range (Qfix.svdUS [[-1/4]]).2.length).map fun r =>
            (List.range 1).map fun j =>
              [(1 : ℚ)/2].getD r 0 + ((List.range ((0 + 1) * (0 + 2) / 2)).map fun idx =>
                Qfix.sqrt ((Qfix.svdUS [[-1/4]]).2.getD idx 0)
                  * ((Qfix.svdUS [[-1/4]]).1.getD r []).getD idx 0
                  * ([[(1 : ℚ)]].getD idx []).getD j 0).sum)
          (heM1M2 0 1 [[1]] [[1]]) 1)) :=
  loss_cholesky_fallback Qfix 0 1 1 0 ⟨[1], [1], [0], [0], [1]⟩ [[1]] [[1]] [[1]] [[1]]
    [1/2] [[-1/4]]
    (by norm_num [getCovEps, mean_cov_pce_quad, atleast_1d, meanQuadEntry, covQuadEntry,
      covQuadRaw, integrandQ, coef_gauss_pce, xQ, yQ, sigQ, muQ, gaussFacQ, hermitenorm,
      Qfix, compute_multi_index, multiIndexTab, List.range_succ, Bind.bind, Except.bind,
      Pure.pure, Except.pure])
    rfl

end ClimateCreditRisk
